import Mathlib

/-!
Verification development for the knowrob symbolic logic core.

The definitions below are shallow embeddings of the C++ sources:
  * src/src/lang/terms.cpp        (terms, lang-side Substitution, Unifier)
  * src/src/terms/Substitution.cpp (Substitution with reversible merge)
  * src/src/queries/QueryParser.cpp (query-language parser and modal options)
  * src/src/reasoner.cpp           (ReasonerManager::loadReasoner and config)

Machine integers (size_t) are modelled as Nat with explicit reduction mod 2^64
where overflow matters.  C++ double values are modelled as rationals: no claim
below depends on rounding behaviour, only on syntactic parsing and on equality
of exactly represented literals.  shared_ptr-based reference identity is
modelled by structural equality on values, with the Top/Bottom singletons
being the dedicated constructors `Term.top` / `Term.bot`.
-/

namespace knowrob

/-- Logical terms, the tagged variant of src/src/lang/terms.cpp and the term
headers: Variable, StringTerm, DoubleTerm, Integer32Term, LongTerm,
Predicate (functor plus ordered arguments; the stored arity always equals the
argument count, as in both Predicate constructors), ListTerm, and the
TopTerm/BottomTerm singletons. -/
inductive Term where
  | var (name : String)
  | str (value : String)
  | dbl (value : Rat)
  | i32 (value : Int)
  | lng (value : Int)
  | pred (functor : String) (args : List Term)
  | lst (elems : List Term)
  | top
  | bot

/-- Term::isBottom. -/
def Term.isBottom : Term → Bool
  | .bot => true
  | _ => false

/-- Term::isTop. -/
def Term.isTop : Term → Bool
  | .top => true
  | _ => false

/-- Test for TermType::VARIABLE. -/
def Term.isVar : Term → Bool
  | .var _ => true
  | _ => false

/-- Test for TermType::PREDICATE. -/
def Term.isPred : Term → Bool
  | .pred _ _ => true
  | _ => false

mutual
/-- Term::isGround: true iff no Variable is reachable.  Predicate caches the
conjunction of its arguments' groundness (Predicate::isGround1), which is
consistent with the transitive walk; constants and the singletons are ground. -/
def Term.isGround : Term → Bool
  | .var _ => false
  | .pred _ args => Term.isGroundList args
  | .lst elems => Term.isGroundList elems
  | _ => true

/-- Groundness of an argument vector (the loop of Predicate::isGround1). -/
def Term.isGroundList : List Term → Bool
  | [] => true
  | t :: ts => t.isGround && Term.isGroundList ts
end

/-- Lexicographic comparison of character lists by code point, the order of
std::string::operator< (identical to the byte order on the ASCII names that
appear in this code base). -/
def strLtL : List Char → List Char → Bool
  | _, [] => false
  | [], _ :: _ => true
  | a :: as, b :: bs =>
    if a.toNat < b.toNat then true
    else if b.toNat < a.toNat then false
    else strLtL as bs

/-- std::string::operator<, used by Variable::operator< through the name and
by the functor comparison of PredicateIndicator::operator<. -/
def strLt (a b : String) : Bool :=
  strLtL a.toList b.toList

/-- A substitution mapping, std::map<Variable, TermPtr> from the sources,
modelled as an association list from variable names to terms kept strictly
sorted by name (Variable::operator< compares names), which fixes the same
iteration order as the C++ map. -/
abbrev Smap := List (String × Term)

/-- Lookup, Substitution::get: the mapped term, or none for the null TermPtr. -/
def smapFind : Smap → String → Option Term
  | [], _ => none
  | (k, t) :: rest, v => if v = k then some t else smapFind rest v

/-- Substitution::contains. -/
def smapContains (m : Smap) (v : String) : Bool :=
  (smapFind m v).isSome

/-- std::map::insert: adds the pair at its sorted position, and leaves the map
unchanged when the key is already present (it never overwrites). -/
def smapInsert : Smap → String → Term → Smap
  | [], v, t => [(v, t)]
  | (k, u) :: rest, v, t =>
    if strLt v k then (v, t) :: (k, u) :: rest
    else if v = k then (k, u) :: rest
    else (k, u) :: smapInsert rest v t

/-- Overwriting update: mapping_[var] = term (lang Substitution::set) and
iterator assignment it->second = term. -/
def smapSet : Smap → String → Term → Smap
  | [], v, t => [(v, t)]
  | (k, u) :: rest, v, t =>
    if strLt v k then (v, t) :: (k, u) :: rest
    else if v = k then (k, t) :: rest
    else (k, u) :: smapSet rest v t

/-- Substitution::erase / std::map::erase by key. -/
def smapErase : Smap → String → Smap
  | [], _ => []
  | (k, u) :: rest, v => if v = k then rest else (k, u) :: smapErase rest v

/-- The std::map invariant: keys strictly increasing. -/
def sortedKeys : Smap → Bool
  | [] => true
  | [_] => true
  | (k, _) :: (k2, t2) :: rest =>
    strLt k k2 && sortedKeys ((k2, t2) :: rest)

/-- Argument mapping of Predicate::applySubstitution (terms.cpp lines 148-183):
variables are replaced when bound, predicates are rebuilt recursively unless
ground (structural sharing), everything else is kept unchanged. -/
def applyArgs (sub : Smap) : List Term → List Term
  | [] => []
  | t :: ts =>
    (match t with
     | .var v =>
       (match smapFind sub v with
        | none => .var v
        | some r => r)
     | .pred f args =>
       if Term.isGround (.pred f args) then .pred f args
       else .pred f (applyArgs sub args)
     | other => other) :: applyArgs sub ts

/-- apply(term, sub): the substitution application of section 4.2, whose
compound case is Predicate::applySubstitution. -/
def applyTerm (sub : Smap) : Term → Term
  | .var v =>
    (match smapFind sub v with
     | none => .var v
     | some r => r)
  | .pred f args =>
    if Term.isGround (.pred f args) then .pred f args
    else .pred f (applyArgs sub args)
  | t => t

/-- PredicateIndicator: a (functor, arity) pair. -/
structure PredicateIndicator where
  functor : String
  arity : Nat
  deriving Repr, DecidableEq

/-- PredicateIndicator::operator< exactly as written in terms.cpp lines
99-103: (other.functor_ < this->functor_) || (other.arity_ < this->arity_). -/
def piLess (a b : PredicateIndicator) : Bool :=
  strLt b.functor a.functor || decide (b.arity < a.arity)

mutual
/-- Unifier::unify (terms.cpp lines 307-368), threading the accumulated
mapping.  The compound case reproduces the source verbatim, including the
functor/arity test that compares p0's indicator WITH ITSELF.  The unknown
term type default (which covers ListTerm here) logs a warning and fails. -/
def langUnify (m : Smap) : Term → Term → Smap × Bool
  | t0, .var v => (smapSet m v t0, true)
  | .var v, t1 => (smapSet m v t1, true)
  | .pred f0 a0, t1 =>
    match t1 with
    | .pred _ a1 =>
      -- source bug kept as written: both tests compare p0 against p0
      if f0 ≠ f0 || a0.length ≠ a0.length then (m, false)
      else langUnifyArgs m a0 a1
    | _ => (m, false)
  | .str s0, t1 =>
    (m, match t1 with
        | .str s1 => s0 = s1
        | _ => false)
  | .dbl d0, t1 =>
    (m, match t1 with
        | .dbl d1 => d0 = d1
        | _ => false)
  | .i32 n0, t1 =>
    (m, match t1 with
        | .i32 n1 => n0 = n1
        | _ => false)
  | .lng n0, t1 =>
    (m, match t1 with
        | .lng n1 => n0 = n1
        | _ => false)
  | .top, t1 => (m, t1.isTop)
  | .bot, t1 => (m, t1.isBottom)
  | .lst _, _ => (m, false)

/-- The pairwise argument loop of the compound case.  The loop bound is
p0's arity; running out of p1 arguments corresponds to an out-of-bounds
read in the C++ (undefined behaviour), modelled as failure; no claim below
evaluates the model in that region. -/
def langUnifyArgs (m : Smap) : List Term → List Term → Smap × Bool
  | [], _ => (m, true)
  | _ :: _, [] => (m, false)
  | x :: xs, y :: ys =>
    match langUnify m x y with
    | (m2, true) => langUnifyArgs m2 xs ys
    | (m2, false) => (m2, false)
end

/-- The Unifier object: the two input terms, the computed mapping and the
exists_ flag (named uexists since exists is reserved). -/
structure Unifier where
  t0 : Term
  t1 : Term
  mapping : Smap
  uexists : Bool

/-- Unifier::Unifier(t0, t1): runs unify on an empty substitution. -/
def mkUnifier (t0 t1 : Term) : Unifier :=
  let r := langUnify [] t0 t1
  ⟨t0, t1, r.1, r.2⟩

/-- Unifier::apply (terms.cpp lines 370-401): the Bottom singleton when no
unifier exists, otherwise the preferred input (or the instantiated predicate);
the final fallback ("something went wrong") also yields Bottom. -/
def Unifier.apply (u : Unifier) : Term :=
  if !u.uexists then .bot
  else if u.mapping.isEmpty || u.t0.isGround || u.t1.isVar then u.t0
  else if u.t1.isGround || u.t0.isVar then u.t1
  else
    match u.t0 with
    | .pred f args => .pred f (applyArgs u.mapping args)
    | _ => .bot

/-! Embedding of src/src/terms/Substitution.cpp: the Substitution with the
reversible merge protocol.  Substitution::set delegates to std::map::insert
(no overwrite), unlike the lang-side set.  The Unifier invoked by unifyWith
is declared in knowrob/terms/Unifier.h; its implementation is the unifier of
src/src/lang/terms.cpp embedded above, and none of the proofs about the merge
depend on which term it computes. -/

/-- Substitution::set of src/src/terms/Substitution.cpp:
mapping_.insert(std::pair(var, term)), which never overwrites. -/
def subSet (m : Smap) (v : String) (t : Term) : Smap :=
  smapInsert m v t

/-- An undo closure pushed by Substitution::unifyWith, represented by the data
it captures: either erase the freshly inserted key, or restore the previous
term of a replaced entry. -/
inductive UndoEntry where
  | added (key : String)
  | replaced (key : String) (oldTerm : Term)

/-- Modelled from the spec: the container type of the Reversible journal is
declared in knowrob/terms/Substitution.h, which is not among the sources
here (src/src/terms/Substitution.cpp only uses its push/front/pop/empty
members).  Section 3 of the spec describes it as "a last-in-first-out stack
of undo closures" whose rollback "replays them in reverse", so it is modelled
as a list whose push places the new entry on top and whose front/pop (used by
Reversible::rollBack) read and remove the top. -/
abbrev Reversible := List UndoEntry

/-- Reversible::push: the new undo entry goes on top of the stack. -/
def revPush (j : Reversible) (e : UndoEntry) : Reversible :=
  e :: j

/-- Running one undo closure against the substitution: the closure pushed for
an insertion erases the key, the closure pushed for a replacement restores
the old term through the captured iterator. -/
def runUndo (m : Smap) : UndoEntry → Smap
  | .added k => smapErase m k
  | .replaced k t => smapSet m k t

/-- Reversible::rollBack: run the journal until empty, taking the next undo
from the top of the stack. -/
def rollBackAll (j : Reversible) (m : Smap) : Smap :=
  j.foldl runUndo m

/-- Substitution::unifyWith (Substitution.cpp lines 80-109): fold over the
other substitution's pairs in map order; unbound variables are inserted with
an erase undo; bound variables are unified, overwritten with the unified term
and given a restore undo; a failed unification aborts with false, leaving the
entries processed so far (and their journal) in place. -/
def unifyWith (m : Smap) (other : List (String × Term)) (j : Reversible) :
    Smap × Reversible × Bool :=
  match other with
  | [] => (m, j, true)
  | (v, t1) :: rest =>
    match smapFind m v with
    | none => unifyWith (smapInsert m v t1) rest (revPush j (.added v))
    | some t0 =>
      let sigma := mkUnifier t0 t1
      if sigma.uexists then
        unifyWith (smapSet m v sigma.apply) rest (revPush j (.replaced v t0))
      else
        (m, j, false)

/-- The magic constant named GOLDEN in Substitution::computeHash,
static_cast<size_t>(0x9e3779b9). -/
def hashMagic : Nat := 0x9e3779b9

/-- One seed-combination step of Substitution::computeHash, in size_t
(mod 2^64) arithmetic: seed ^= h + magic + (seed << 6) + (seed >> 2). -/
def hashStep (seed h : Nat) : Nat :=
  seed ^^^ ((h + hashMagic + (seed <<< 6) % 2 ^ 64 + seed >>> 2) % 2 ^ 64)

/-- Substitution::computeHash (Substitution.cpp lines 51-78): fold the key
and value hashes over the mapping in iteration order.  The leaf hashes
(Variable::computeHash and Term::computeHash) are implementation-defined
std::hash values, so they are passed in as parameters; every claim below
holds for all choices of leaf hash. -/
def computeHash (hk : String → Nat) (ht : Term → Nat) (m : Smap) : Nat :=
  m.foldl (fun seed kv => hashStep (hashStep seed (hk kv.1)) (ht kv.2)) 0

/-! Embedding of src/src/reasoner.cpp: ReasonerManager::loadReasoner and
ReasonerConfiguration::loadPropertyTree. -/

/-- A boost::property_tree::ptree node: its own data string plus an ordered
list of keyed children. -/
inductive PTree where
  | node (value : String) (children : List (String × PTree))

/-- The data string of a node. -/
def PTree.value : PTree → String
  | .node v _ => v

/-- The children of a node. -/
def PTree.children : PTree → List (String × PTree)
  | .node _ cs => cs

/-- First child with the given key, as boost's find-based lookup. -/
def lookupChild : List (String × PTree) → String → Option PTree
  | [], _ => none
  | (k, t) :: rest, key => if k = key then some t else lookupChild rest key

/-- ptree::get_optional<std::string>(key) for a single-level key: the data
string of the first child with that key. -/
def ptGetOpt (t : PTree) (key : String) : Option String :=
  (lookupChild t.children key).map PTree.value

/-- ptree::get<std::string>(key, default). -/
def ptGetOr (t : PTree) (key : String) (dflt : String) : String :=
  match ptGetOpt t key with
  | some v => v
  | none => dflt

/-- A DataFile of a data-sources entry: path and format, the default format
being the empty string (meaning unknown). -/
structure DataFile where
  path : String
  format : String
  deriving Repr, DecidableEq

/-- ReasonerConfiguration: the flattened settings list and the data files. -/
structure RConfig where
  settings : List (Term × Term)
  dataFiles : List DataFile

/-- ReasonerConfiguration::loadSettings (reasoner.cpp lines 241-264): flatten
a nested subtree; nested keys become key1 : key2 compounds with the ":"
functor; children with empty keys indicate list values and are skipped with
a warning; leaf values become string terms. -/
def loadSettingsList (key1 : Term) : List (String × PTree) → List (Term × Term)
  | [] => []
  | (k, .node v cs) :: rest =>
    if k = "" then
      loadSettingsList key1 rest
    else
      let keyT := Term.pred ":" [key1, Term.str k]
      (if cs.isEmpty then [(keyT, Term.str v)] else loadSettingsList keyT cs)
        ++ loadSettingsList key1 rest

/-- The top-level settings loop of loadPropertyTree (lines 214-222): leaf
children become (StringTerm key, StringTerm value) pairs, subtrees are
flattened through loadSettings. -/
def loadTopSettings : List (String × PTree) → List (Term × Term)
  | [] => []
  | (k, .node v cs) :: rest =>
    (if cs.isEmpty then [(Term.str k, Term.str v)]
     else loadSettingsList (Term.str k) cs)
      ++ loadTopSettings rest

/-- The data-sources loop of loadPropertyTree (lines 224-238): every child of
data-sources carrying a file value becomes a DataFile, with format defaulting
to the empty string; entries without a file are warned about and dropped. -/
def loadDataFiles : List (String × PTree) → List DataFile
  | [] => []
  | (_, sub) :: rest =>
    match ptGetOpt sub "file" with
    | some f => ⟨f, ptGetOr sub "format" ""⟩ :: loadDataFiles rest
    | none => loadDataFiles rest

/-- ReasonerConfiguration::loadPropertyTree (reasoner.cpp lines 209-239). -/
def loadPropertyTree (config : PTree) : RConfig :=
  { settings := loadTopSettings config.children
    dataFiles :=
      match lookupChild config.children "data-sources" with
      | some ds => loadDataFiles ds.children
      | none => [] }

/-- A reasoner instance as seen by loadReasoner: its id and its virtual
loadConfiguration method, which is backend-defined and therefore carried as
an opaque boolean-valued function of the built configuration. -/
structure Reasoner where
  rid : String
  loadCfg : RConfig → Bool

/-- A ReasonerFactory: name() and createReasoner(id). -/
structure ReasonerFactory where
  fname : String
  create : String → Reasoner

/-- The ReasonerManager state used by loadReasoner: the factory registry,
the reasoner pool, and the monotonically increasing auto-naming index. -/
structure ManagerState where
  factories : List (String × ReasonerFactory)
  pool : List Reasoner
  reasonerIndex : Nat

/-- Factory registry lookup (reasonerFactories_.find). -/
def lookupFactory : List (String × ReasonerFactory) → String → Option ReasonerFactory
  | [], _ => none
  | (k, f) :: rest, key => if k = key then some f else lookupFactory rest key

/-- The outcome of ReasonerManager::loadReasoner: either the updated manager
state, or the thrown ReasonerError. -/
inductive LoadResult where
  | ok (st : ManagerState)
  | reasonerFail (msg : String)

/-- The factory-resolution stage of loadReasoner (reasoner.cpp lines 70-88):
a lib key resolves through the plugin loader (dlopen-based, hence passed in
as the opaque dl parameter, none meaning the warned-and-null plugin), else a
type key resolves through the registry (a miss is a warning and leaves the
factory null), else a warning and a null factory. -/
def resolveFactory (dl : String → Option ReasonerFactory) (st : ManagerState)
    (config : PTree) : Option ReasonerFactory :=
  match ptGetOpt config "lib" with
  | some l => dl l
  | none =>
    match ptGetOpt config "type" with
    | some ty => lookupFactory st.factories ty
    | none => none

/-- The instance id of loadReasoner (lines 93-100): the name property when
present, else factory name concatenated with the current index. -/
def reasonerID (st : ManagerState) (config : PTree) (f : ReasonerFactory) : String :=
  match ptGetOpt config "name" with
  | some n => n
  | none => f.fname ++ toString st.reasonerIndex

/-- ReasonerManager::loadReasoner (reasoner.cpp lines 64-114): resolve the
factory (throwing ReasonerError when null), create the instance, build the
configuration and call loadConfiguration; on false warn and drop the
instance, on true add it to the pool; increment the index unconditionally. -/
def loadReasoner (dl : String → Option ReasonerFactory) (st : ManagerState)
    (config : PTree) : LoadResult :=
  match resolveFactory dl st config with
  | none => .reasonerFail "failed to load a reasoner."
  | some f =>
    let r := f.create (reasonerID st config f)
    let rcfg := loadPropertyTree config
    if r.loadCfg rcfg then
      .ok { st with pool := st.pool ++ [r], reasonerIndex := st.reasonerIndex + 1 }
    else
      .ok { st with reasonerIndex := st.reasonerIndex + 1 }

/-! Embedding of src/src/queries/QueryParser.cpp: the boost::spirit::qi
grammar, with PEG semantics.  A qi rule invoked from a phrase-parsing
context first skips whitespace with the caller's skipper; rules declared
without a skipper (TermRule, StringRule) then parse their body without any
internal skipping, while FormulaRule/PredicateRule bodies skip before every
component.  Alternatives restart from the saved position; a thrown QueryError
is a C++ exception and aborts the whole parse without backtracking, which is
the third constructor of the result type below.  Exception messages are
represented structurally (the C++ formats them as text). -/

/-- QueryError, by its three sources in QueryParser.cpp: full-input syntax
failure (parse_), an unrecognized modal-operator option (reportUnrecognized),
and an unregistered IRI prefix (createIRI). -/
inductive QError where
  | invalidSyntax (query : String)
  | unrecognizedOption (opt : Term)
  | iriNotRegistered (entity : String) (ns : String)

/-- Outcome of running one qi parser: success with remaining input, plain
failure (the caller backtracks), or a thrown QueryError (propagates). -/
inductive PResult (α : Type) where
  | ok (val : α) (rest : List Char)
  | fail
  | err (e : QError)

/-- Map the attribute of a successful parse. -/
def PResult.mapv (f : α → β) : PResult α → PResult β
  | .ok v r => .ok (f v) r
  | .fail => .fail
  | .err e => .err e

/-- The qi alternative: try the second parser only on plain failure; both
success and a thrown QueryError stop the alternation. -/
def PResult.orElse (a : PResult α) (b : Unit → PResult α) : PResult α :=
  match a with
  | .fail => b ()
  | r => r

/-- The injected PrefixRegistry::createIRI hook (semweb/PrefixRegistry is an
external collaborator of the parser): namespace and entity to the expanded
IRI, or none when the prefix is not registered.  None of the inputs below
ever reaches the hook, and the claims hold for every choice of it. -/
def IriResolver := String → String → Option String

/-- The single-quote character (ASCII 39). -/
def squoteChar : Char := Char.ofNat 39

/-- The double-quote character (ASCII 34). -/
def dquoteChar : Char := Char.ofNat 34

/-- ascii::space: the characters skipped by the phrase-level skipper. -/
def isSpaceChar (c : Char) : Bool :=
  c = ' ' || c = '\t' || c = '\n' || c = '\x0b' || c = '\x0c' || c = '\r'

/-- Pre-skipping performed at every component of a skipper-bearing rule. -/
def skipWs (s : List Char) : List Char :=
  s.dropWhile isSpaceChar

def isLowerChar (c : Char) : Bool := 'a' ≤ c && c ≤ 'z'

def isUpperChar (c : Char) : Bool := 'A' ≤ c && c ≤ 'Z'

def isAlphaChar (c : Char) : Bool := isLowerChar c || isUpperChar c

def isDigitChar (c : Char) : Bool := '0' ≤ c && c ≤ '9'

def isAlnumChar (c : Char) : Bool := isAlphaChar c || isDigitChar c

/-- The singleQuotes/doubleQuotes lexemes: quote, one or more characters
other than the quote, quote; the attribute is the enclosed text. -/
def pQuoted (q : Char) (s : List Char) : PResult String :=
  match s with
  | c :: rest =>
    if c = q then
      let content := rest.takeWhile (fun c2 => c2 ≠ q)
      if content.isEmpty then .fail
      else
        match rest.drop content.length with
        | c2 :: rest2 => if c2 = q then .ok (String.mk content) rest2 else .fail
        | [] => .fail
    else .fail
  | [] => .fail

/-- raw[firstClass >> *(alnum | underscore)], shared shape of the
lowerPrefix/upperPrefix lexemes and of iri_ns / the bare iri_entity. -/
def pWordFrom (firstOk : Char → Bool) (s : List Char) : PResult String :=
  match s with
  | c :: rest =>
    if firstOk c then
      let tail := rest.takeWhile (fun c2 => isAlnumChar c2 || c2 = '_')
      .ok (String.mk (c :: tail)) (rest.drop tail.length)
    else .fail
  | [] => .fail

def pLowerWord (s : List Char) : PResult String := pWordFrom isLowerChar s

def pUpperWord (s : List Char) : PResult String := pWordFrom isUpperChar s

def pAlphaWord (s : List Char) : PResult String := pWordFrom isAlphaChar s

/-- The iri rule: iri_ns, a colon, then iri_entity (single quotes or an
alphanumeric word); the action calls createIRI, which throws a QueryError
when the namespace is not registered. -/
def pIri (reg : IriResolver) (s : List Char) : PResult String :=
  match pAlphaWord s with
  | .ok ns s1 =>
    (match s1 with
     | ':' :: s2 =>
       (match (pQuoted squoteChar s2).orElse (fun _ => pAlphaWord s2) with
        | .ok ent s3 =>
          (match reg ns ent with
           | some uri => .ok uri s3
           | none => .err (.iriNotRegistered ent ns))
        | .fail => .fail
        | .err e => .err e)
     | _ => .fail)
  | .fail => .fail
  | .err e => .err e

/-- atomRaw %= singleQuotes | iri | lowerPrefix. -/
def pAtomRaw (reg : IriResolver) (s : List Char) : PResult String :=
  (pQuoted squoteChar s).orElse fun _ =>
    (pIri reg s).orElse fun _ => pLowerWord s

/-- atom: atomRaw wrapped into a StringTerm. -/
def pAtom (reg : IriResolver) (s : List Char) : PResult Term :=
  (pAtomRaw reg s).mapv Term.str

/-- string: doubleQuotes wrapped into a StringTerm. -/
def pStringT (s : List Char) : PResult Term :=
  (pQuoted dquoteChar s).mapv Term.str

/-- variable: upperPrefix wrapped into a Variable. -/
def pVariable (s : List Char) : PResult Term :=
  (pUpperWord s).mapv Term.var

def digitsToNat (ds : List Char) : Nat :=
  ds.foldl (fun n c => n * 10 + (c.toNat - 48)) 0

/-- Value of a fraction-digit block. -/
def fracVal (ds : List Char) : Rat :=
  (digitsToNat ds : Rat) / (10 : Rat) ^ ds.length

/-- Optional exponent tail of qi::double_; a lone exponent character without
digits is left unconsumed. -/
def pExpTail (v : Rat) (s : List Char) : PResult Rat :=
  match s with
  | c :: s1 =>
    if c = 'e' || c = 'E' then
      match s1 with
      | '-' :: s2 =>
        let ds := s2.takeWhile isDigitChar
        if ds.isEmpty then .ok v s
        else .ok (v / (10 : Rat) ^ digitsToNat ds) (s2.drop ds.length)
      | '+' :: s2 =>
        let ds := s2.takeWhile isDigitChar
        if ds.isEmpty then .ok v s
        else .ok (v * (10 : Rat) ^ digitsToNat ds) (s2.drop ds.length)
      | _ =>
        let ds := s1.takeWhile isDigitChar
        if ds.isEmpty then .ok v s
        else .ok (v * (10 : Rat) ^ digitsToNat ds) (s1.drop ds.length)
    else .ok v s
  | [] => .ok v []

/-- The unsigned part of qi::double_: digits with an optional fraction, or a
leading dot with digits, then an optional exponent. -/
def pUnsignedReal (s : List Char) : PResult Rat :=
  let ip := s.takeWhile isDigitChar
  if ip.isEmpty then
    match s with
    | '.' :: s2 =>
      let fd := s2.takeWhile isDigitChar
      if fd.isEmpty then .fail
      else pExpTail (fracVal fd) (s2.drop fd.length)
    | _ => .fail
  else
    match s.drop ip.length with
    | '.' :: s2 =>
      let fd := s2.takeWhile isDigitChar
      pExpTail ((digitsToNat ip : Rat) + fracVal fd) (s2.drop fd.length)
    | s1 => pExpTail (digitsToNat ip : Rat) s1

/-- number: qi::double_ with its sign, wrapped into a DoubleTerm. -/
def pNumber (s : List Char) : PResult Term :=
  match s with
  | '-' :: s1 => (pUnsignedReal s1).mapv (fun v => Term.dbl (-v))
  | '+' :: s1 => (pUnsignedReal s1).mapv Term.dbl
  | _ => (pUnsignedReal s).mapv Term.dbl

/-- constant %= atom | string | number. -/
def pConstant (reg : IriResolver) (s : List Char) : PResult Term :=
  (pAtom reg s).orElse fun _ =>
    (pStringT s).orElse fun _ => pNumber s

/-- keyvalue: atom, an equality sign, and a constant, assembled into a
Predicate with the "=" functor and the two terms as arguments. -/
def pKeyValue (reg : IriResolver) (s : List Char) : PResult Term :=
  match pAtom reg s with
  | .ok k s1 =>
    (match s1 with
     | '=' :: s2 => (pConstant reg s2).mapv (fun v => Term.pred "=" [k, v])
     | _ => .fail)
  | .fail => .fail
  | .err e => .err e

/-- option %= keyvalue | constant. -/
def pOption (reg : IriResolver) (s : List Char) : PResult Term :=
  (pKeyValue reg s).orElse fun _ => pConstant reg s

/-- The qi list operator p % sep: one p, then as many (sep p) groups as
match, each failed group being backtracked.  The fuel bounds the iteration
count; it is always instantiated above the input length, and every iteration
consumes at least one character, so the bound is never reached. -/
def sepManyRest (p : List Char → PResult α) (sep : Char) :
    Nat → List α → List Char → PResult (List α)
  | 0, acc, s => .ok acc.reverse s
  | fuel + 1, acc, s =>
    match s with
    | c :: s1 =>
      if c = sep then
        match p s1 with
        | .ok t s2 => sepManyRest p sep fuel (t :: acc) s2
        | .fail => .ok acc.reverse s
        | .err e => .err e
      else .ok acc.reverse s
    | [] => .ok acc.reverse s

/-- p % sep in a skipper-free (TermRule) context. -/
def sepMany (p : List Char → PResult α) (sep : Char) (fuel : Nat)
    (s : List Char) : PResult (List α) :=
  match p s with
  | .ok t s1 => sepManyRest p sep fuel [t] s1
  | .fail => .fail
  | .err e => .err e

/-- The looping part of p % sep inside a skipper-bearing rule: whitespace is
skipped before the separator and before each element. -/
def sepManyWsRest (p : List Char → PResult α) (sep : Char) :
    Nat → List α → List Char → PResult (List α)
  | 0, acc, s => .ok acc.reverse s
  | fuel + 1, acc, s =>
    match skipWs s with
    | c :: s1 =>
      if c = sep then
        match p (skipWs s1) with
        | .ok t s2 => sepManyWsRest p sep fuel (t :: acc) s2
        | .fail => .ok acc.reverse s
        | .err e => .err e
      else .ok acc.reverse s
    | [] => .ok acc.reverse s

/-- p % sep in a skipper-bearing (PredicateRule) context. -/
def sepManyWs (p : List Char → PResult α) (sep : Char) (fuel : Nat)
    (s : List Char) : PResult (List α) :=
  match p (skipWs s) with
  | .ok t s1 => sepManyWsRest p sep fuel [t] s1
  | .fail => .fail
  | .err e => .err e

/-- options: an opening bracket, option % comma, and a closing bracket; the
attribute is the option list (a ListTerm in the C++).  The surrounding
(options | nil) alternative is modelled by Option: none stands for the
ListTerm::nil() singleton attribute of the nil rule. -/
def pOptions (reg : IriResolver) (fuel : Nat) (s : List Char) :
    PResult (List Term) :=
  match s with
  | '[' :: s1 =>
    (match sepMany (pOption reg) ',' fuel s1 with
     | .ok l s2 =>
       (match s2 with
        | ']' :: s3 => .ok l s3
        | _ => .fail)
     | .fail => .fail
     | .err e => .err e)
  | _ => .fail

/-- constantList: brackets around constant % comma, as a ListTerm. -/
def pConstantList (reg : IriResolver) (fuel : Nat) (s : List Char) :
    PResult Term :=
  match s with
  | '[' :: s1 =>
    (match sepMany (pConstant reg) ',' fuel s1 with
     | .ok l s2 =>
       (match s2 with
        | ']' :: s3 => .ok (Term.lst l) s3
        | _ => .fail)
     | .fail => .fail
     | .err e => .err e)
  | _ => .fail

mutual
/-- compound: atomRaw, an argument list in parentheses; a TermRule, so no
whitespace skipping anywhere inside. -/
def pCompound (reg : IriResolver) : Nat → List Char → PResult Term
  | 0, _ => .fail
  | fuel + 1, s =>
    match pAtomRaw reg s with
    | .ok name s1 =>
      (match s1 with
       | '(' :: s2 =>
         (match sepMany (pArgument reg fuel) ',' fuel s2 with
          | .ok args s3 =>
            (match s3 with
             | ')' :: s4 => .ok (Term.pred name args) s4
             | _ => .fail)
          | .fail => .fail
          | .err e => .err e)
       | _ => .fail)
    | .fail => .fail
    | .err e => .err e

/-- argument %= compound | variable | constant | constantList. -/
def pArgument (reg : IriResolver) : Nat → List Char → PResult Term
  | 0, _ => .fail
  | fuel + 1, s =>
    (pCompound reg fuel s).orElse fun _ =>
      (pVariable s).orElse fun _ =>
        (pConstant reg s).orElse fun _ => pConstantList reg fuel s
end

/-- TimeInterval of the P/H modalities: optional begin and end points. -/
structure TimeInterval where
  ibegin : Option Rat
  iend : Option Rat
  deriving Repr, DecidableEq

/-- The parametric modal operators: K with an optional agent, B with optional
agent and confidence, P and H with an optional time interval. -/
inductive ModalOp where
  | K (agent : Option String)
  | B (agent : Option String) (confidence : Option Rat)
  | P (interval : Option TimeInterval)
  | H (interval : Option TimeInterval)
  deriving Repr, DecidableEq

/-- TermType::STRING payload of an option term. -/
def strVal? : Term → Option String
  | .str s => some s
  | _ => none

/-- TermType::DOUBLE payload of an option term. -/
def dblVal? : Term → Option Rat
  | .dbl d => some d
  | _ => none

/-- The key/value pair of an option that is a PREDICATE of arity 2 (the
functor is not inspected by the option loops). -/
def kvParts? : Term → Option (Term × Term)
  | .pred _ [k, v] => some (k, v)
  | _ => none

/-- Structural comparison of an option key against StringTerm("agent") and
StringTerm("a"). -/
def isAgentKey : Term → Bool
  | .str s => s = "agent" || s = "a"
  | _ => false

/-- Key comparison against StringTerm("confidence") / StringTerm("c"). -/
def isConfKey : Term → Bool
  | .str s => s = "confidence" || s = "c"
  | _ => false

/-- Key comparison against StringTerm("begin") / StringTerm("since"). -/
def isBeginKey : Term → Bool
  | .str s => s = "begin" || s = "since"
  | _ => false

/-- Key comparison against StringTerm("end") / StringTerm("until"). -/
def isEndKey : Term → Bool
  | .str s => s = "end" || s = "until"
  | _ => false

/-- The option loop of createB (QueryParser.cpp lines 179-213): the first
positional string becomes the agent, the first positional double the
confidence; an arity-2 predicate option assigns through its agent/a or
confidence/c key; every option matching no branch reaches
reportUnrecognized, which throws the QueryError naming the option. -/
def createBLoop : Option String → Option Rat → List Term →
    Except QError (Option String × Option Rat)
  | a, c, [] => .ok (a, c)
  | a, c, o :: rest =>
    if a.isNone && (strVal? o).isSome then
      createBLoop (strVal? o) c rest
    else if c.isNone && (dblVal? o).isSome then
      createBLoop a (dblVal? o) rest
    else
      match kvParts? o with
      | some (k, v) =>
        if a.isNone && (strVal? v).isSome && isAgentKey k then
          createBLoop (strVal? v) c rest
        else if c.isNone && (dblVal? v).isSome && isConfKey k then
          createBLoop a (dblVal? v) rest
        else
          .error (.unrecognizedOption o)
      | none => .error (.unrecognizedOption o)

/-- createB (QueryParser.cpp lines 172-230): none stands for a missing or
nil options term; after the loop the agent "self" is canonicalized away and
the matching BeliefModality constructor is chosen. -/
def createB : Option (List Term) → Except QError ModalOp
  | none => .ok (.B none none)
  | some opts =>
    match createBLoop none none opts with
    | .error e => .error e
    | .ok (a, c) =>
      let a2 := if a = some "self" then none else a
      .ok (.B a2 c)

/-- The option loop of createK (QueryParser.cpp lines 139-162): as createB
but with the agent only. -/
def createKLoop : Option String → List Term → Except QError (Option String)
  | a, [] => .ok a
  | a, o :: rest =>
    if a.isNone && (strVal? o).isSome then
      createKLoop (strVal? o) rest
    else
      match kvParts? o with
      | some (k, v) =>
        if a.isNone && (strVal? v).isSome && isAgentKey k then
          createKLoop (strVal? v) rest
        else .error (.unrecognizedOption o)
      | none => .error (.unrecognizedOption o)

/-- createK (QueryParser.cpp lines 133-170): the parametrized operator is
produced only for an agent other than "self". -/
def createK : Option (List Term) → Except QError ModalOp
  | none => .ok (.K none)
  | some opts =>
    match createKLoop none opts with
    | .error e => .error e
    | .ok a =>
      .ok (match a with
           | some v => if v = "self" then .K none else .K (some v)
           | none => .K none)

/-- The loop of readTimeInterval (QueryParser.cpp lines 232-280): positional
doubles fill begin then end; arity-2 predicate options assign through the
begin/since or end/until keys; anything else (including a third positional
double) reaches reportUnrecognized. -/
def rtiLoop : Option Rat → Option Rat → List Term →
    Except QError (Option Rat × Option Rat)
  | b, e, [] => .ok (b, e)
  | b, e, o :: rest =>
    match dblVal? o with
    | some d =>
      if b.isNone then rtiLoop (some d) e rest
      else if e.isNone then rtiLoop b (some d) rest
      else .error (.unrecognizedOption o)
    | none =>
      match kvParts? o with
      | some (k, v) =>
        if b.isNone && (dblVal? v).isSome && isBeginKey k then
          rtiLoop (dblVal? v) e rest
        else if e.isNone && (dblVal? v).isSome && isEndKey k then
          rtiLoop b (dblVal? v) rest
        else .error (.unrecognizedOption o)
      | none => .error (.unrecognizedOption o)

/-- createP (QueryParser.cpp lines 282-291): a time interval is built when
at least one side was provided, otherwise the plain operator. -/
def createP : Option (List Term) → Except QError ModalOp
  | none => .ok (.P none)
  | some opts =>
    match rtiLoop none none opts with
    | .error e => .error e
    | .ok (b, e) =>
      .ok (if b.isSome || e.isSome then .P (some ⟨b, e⟩) else .P none)

/-- createH (QueryParser.cpp lines 293-302), as createP. -/
def createH : Option (List Term) → Except QError ModalOp
  | none => .ok (.H none)
  | some opts =>
    match rtiLoop none none opts with
    | .error e => .error e
    | .ok (b, e) =>
      .ok (if b.isSome || e.isSome then .H (some ⟨b, e⟩) else .H none)

/-- Formulas: atomic predicates, negation, the n-ary conjunction and
disjunction connectives, binary implication, and modal formulas. -/
inductive Formula where
  | pred (functor : String) (args : List Term)
  | neg (phi : Formula)
  | conj (phis : List Formula)
  | disj (phis : List Formula)
  | impl (lhs rhs : Formula)
  | modal (op : ModalOp) (phi : Formula)

/-- Modelled from the spec: the Formula combinator operator used by the
conjunction rule's action is implemented in the formulas/ sources, which are
not present here; section 4.3 specifies that it constructs the Connective
and flattens associatively when an operand is already of the same kind. -/
def fAnd (a b : Formula) : Formula :=
  match a, b with
  | .conj xs, .conj ys => .conj (xs ++ ys)
  | .conj xs, _ => .conj (xs ++ [b])
  | _, .conj ys => .conj (a :: ys)
  | _, _ => .conj [a, b]

/-- Modelled from the spec: the disjunction combinator operator, flattening
as fAnd does (section 4.3). -/
def fOr (a b : Formula) : Formula :=
  match a, b with
  | .disj xs, .disj ys => .disj (xs ++ ys)
  | .disj xs, _ => .disj (xs ++ [b])
  | _, .disj ys => .disj (a :: ys)
  | _, _ => .disj [a, b]

/-- predicateWithArgs: atomRaw, parenthesized argument % comma; a
PredicateRule, so whitespace is skipped before every component. -/
def pPredWithArgs (reg : IriResolver) (fuel : Nat) (s : List Char) :
    PResult Formula :=
  match pAtomRaw reg (skipWs s) with
  | .ok name s1 =>
    (match skipWs s1 with
     | '(' :: s2 =>
       (match sepManyWs (pArgument reg fuel) ',' fuel s2 with
        | .ok args s3 =>
          (match skipWs s3 with
           | ')' :: s4 => .ok (Formula.pred name args) s4
           | _ => .fail)
        | .fail => .fail
        | .err e => .err e)
     | _ => .fail)
  | .fail => .fail
  | .err e => .err e

/-- predicate %= predicateWithArgs | predicateNullary, the nullary branch
being a bare atomRaw with an empty argument vector. -/
def pPredicateF (reg : IriResolver) (fuel : Nat) (s : List Char) :
    PResult Formula :=
  (pPredWithArgs reg fuel s).orElse fun _ =>
    (pAtomRaw reg (skipWs s)).mapv (fun n => Formula.pred n [])

mutual
/-- formula %= implication | brackets. -/
def pFormula (reg : IriResolver) : Nat → List Char → PResult Formula
  | 0, _ => .fail
  | fuel + 1, s =>
    (pImplication reg fuel s).orElse fun _ => pBrackets reg fuel s

/-- brackets %= a parenthesized formula. -/
def pBrackets (reg : IriResolver) : Nat → List Char → PResult Formula
  | 0, _ => .fail
  | fuel + 1, s =>
    match skipWs s with
    | '(' :: s1 =>
      (match pFormula reg fuel s1 with
       | .ok phi s2 =>
         (match skipWs s2 with
          | ')' :: s3 => .ok phi s3
          | _ => .fail)
       | .fail => .fail
       | .err e => .err e)
    | _ => .fail

/-- implication: (disjunction | brackets) "->" (implication | brackets)
built right-associatively as a binary Implication, else a disjunction. -/
def pImplication (reg : IriResolver) : Nat → List Char → PResult Formula
  | 0, _ => .fail
  | fuel + 1, s =>
    let branch1 : PResult Formula :=
      match (pDisjunction reg fuel s).orElse (fun _ => pBrackets reg fuel s) with
      | .ok a s1 =>
        (match skipWs s1 with
         | '-' :: '>' :: s2 =>
           (match (pImplication reg fuel s2).orElse (fun _ => pBrackets reg fuel s2) with
            | .ok b s3 => .ok (.impl a b) s3
            | .fail => .fail
            | .err e => .err e)
         | _ => .fail)
      | .fail => .fail
      | .err e => .err e
    branch1.orElse fun _ => pDisjunction reg fuel s

/-- disjunction: (conjunction | brackets) (semicolon or bar)
(disjunction | brackets) combined with the flattening or-operator, else a
conjunction. -/
def pDisjunction (reg : IriResolver) : Nat → List Char → PResult Formula
  | 0, _ => .fail
  | fuel + 1, s =>
    let branch1 : PResult Formula :=
      match (pConjunction reg fuel s).orElse (fun _ => pBrackets reg fuel s) with
      | .ok a s1 =>
        (match skipWs s1 with
         | c :: s2 =>
           if c = ';' || c = '|' then
             match (pDisjunction reg fuel s2).orElse (fun _ => pBrackets reg fuel s2) with
             | .ok b s3 => .ok (fOr a b) s3
             | .fail => .fail
             | .err e => .err e
           else .fail
         | [] => .fail)
      | .fail => .fail
      | .err e => .err e
    branch1.orElse fun _ => pConjunction reg fuel s

/-- conjunction: (unary | brackets) (comma or ampersand)
(conjunction | brackets) combined with the flattening and-operator, else a
unary formula. -/
def pConjunction (reg : IriResolver) : Nat → List Char → PResult Formula
  | 0, _ => .fail
  | fuel + 1, s =>
    let branch1 : PResult Formula :=
      match pUnaryOrBrackets reg fuel s with
      | .ok a s1 =>
        (match skipWs s1 with
         | c :: s2 =>
           if c = ',' || c = '&' then
             match (pConjunction reg fuel s2).orElse (fun _ => pBrackets reg fuel s2) with
             | .ok b s3 => .ok (fAnd a b) s3
             | .fail => .fail
             | .err e => .err e
           else .fail
         | [] => .fail)
      | .fail => .fail
      | .err e => .err e
    branch1.orElse fun _ => pUnary reg fuel s

/-- unary %= modalFormula | negation | predicate. -/
def pUnary (reg : IriResolver) : Nat → List Char → PResult Formula
  | 0, _ => .fail
  | fuel + 1, s =>
    (pModalFormula reg fuel s).orElse fun _ =>
      (pNegation reg fuel s).orElse fun _ => pPredicateF reg fuel s

/-- The (unary | brackets) body shared by the unary-operator rules. -/
def pUnaryOrBrackets (reg : IriResolver) : Nat → List Char → PResult Formula
  | 0, _ => .fail
  | fuel + 1, s =>
    (pUnary reg fuel s).orElse fun _ => pBrackets reg fuel s

/-- The shared shape of the belief/knowledge/oncePast/alwaysPast rules: the
operator character, (options | nil), then (unary | brackets); the create
action runs only after the body parsed, and its QueryError propagates. -/
def pModalWith (reg : IriResolver) (sym : Char)
    (mk : Option (List Term) → Except QError ModalOp) :
    Nat → List Char → PResult Formula
  | 0, _ => .fail
  | fuel + 1, s =>
    match skipWs s with
    | c :: s1 =>
      if c = sym then
        match pOptions reg fuel (skipWs s1) with
        | .err e => .err e
        | .ok l s2 =>
          (match pUnaryOrBrackets reg fuel s2 with
           | .ok phi s3 =>
             (match mk (some l) with
              | .ok op => .ok (.modal op phi) s3
              | .error e => .err e)
           | .fail => .fail
           | .err e => .err e)
        | .fail =>
          (match pUnaryOrBrackets reg fuel s1 with
           | .ok phi s3 =>
             (match mk none with
              | .ok op => .ok (.modal op phi) s3
              | .error e => .err e)
           | .fail => .fail
           | .err e => .err e)
      else .fail
    | [] => .fail

/-- modalFormula %= belief | knowledge | oncePast | alwaysPast. -/
def pModalFormula (reg : IriResolver) : Nat → List Char → PResult Formula
  | 0, _ => .fail
  | fuel + 1, s =>
    (pModalWith reg 'B' createB fuel s).orElse fun _ =>
      (pModalWith reg 'K' createK fuel s).orElse fun _ =>
        (pModalWith reg 'P' createP fuel s).orElse fun _ =>
          pModalWith reg 'H' createH fuel s

/-- negation: a tilde before (unary | brackets), building a Negation. -/
def pNegation (reg : IriResolver) : Nat → List Char → PResult Formula
  | 0, _ => .fail
  | fuel + 1, s =>
    match skipWs s with
    | '~' :: s1 => (pUnaryOrBrackets reg fuel s1).mapv Formula.neg
    | _ => .fail
end

/-- QueryParser::parse through parse_ (QueryParser.cpp lines 412-434):
phrase_parse on the formula rule with the ascii::space skipper and trailing
post-skip; unconsumed input or rule failure throws the invalid-syntax
QueryError, and a QueryError thrown inside the grammar propagates.  Every
recursive entry of the grammar consumes at least one character, so the
recursion depth is bounded by the input length and the chosen fuel is never
exhausted. -/
def qparse (reg : IriResolver) (q : String) : Except QError Formula :=
  let s := q.toList
  match pFormula reg (8 * s.length + 64) s with
  | .ok phi rest =>
    if (skipWs rest).isEmpty then .ok phi else .error (.invalidSyntax q)
  | .fail => .error (.invalidSyntax q)
  | .err e => .error e

/-- The thrown error of an operation, none on normal return. -/
def errOf : Except QError α → Option QError
  | .error e => some e
  | .ok _ => none

/-- Spec-side statement (section 4.5) of when the B operator accepts an
option given the already-assigned parameters: a positional string while the
agent is unset, a positional float while the confidence is unset, or a
key=value with a known key (agent/a of string type, confidence/c of float
type) whose parameter is unset.  Its negation is exactly "a duplicate
assignment to an already-set parameter, an unknown key, or a type
mismatch". -/
def specRecognizedB (a : Option String) (c : Option Rat) (o : Term) : Bool :=
  (a.isNone && (strVal? o).isSome) ||
  (c.isNone && (dblVal? o).isSome) ||
  (match kvParts? o with
   | some (k, v) =>
     (a.isNone && (strVal? v).isSome && isAgentKey k) ||
     (c.isNone && (dblVal? v).isSome && isConfKey k)
   | none => false)

/-- The parameter assignment performed by an accepted B option. -/
def specStepB (a : Option String) (c : Option Rat) (o : Term) :
    Option String × Option Rat :=
  if a.isNone && (strVal? o).isSome then (strVal? o, c)
  else if c.isNone && (dblVal? o).isSome then (a, dblVal? o)
  else
    match kvParts? o with
    | some (k, v) =>
      if a.isNone && (strVal? v).isSome && isAgentKey k then (strVal? v, c)
      else if c.isNone && (dblVal? v).isSome && isConfKey k then (a, dblVal? v)
      else (a, c)
    | none => (a, c)

/-- The first B option that is a duplicate assignment, an unknown key, or a
type mismatch, tracking the assignment state left by the accepted options
before it; none when every option is accepted. -/
def firstBadB (a : Option String) (c : Option Rat) : List Term → Option Term
  | [] => none
  | o :: rest =>
    if specRecognizedB a c o then
      firstBadB (specStepB a c o).1 (specStepB a c o).2 rest
    else some o

/-- Spec-side acceptance for the K operator: as B but with the agent only. -/
def specRecognizedK (a : Option String) (o : Term) : Bool :=
  (a.isNone && (strVal? o).isSome) ||
  (match kvParts? o with
   | some (k, v) => a.isNone && (strVal? v).isSome && isAgentKey k
   | none => false)

/-- The assignment performed by an accepted K option. -/
def specStepK (a : Option String) (o : Term) : Option String :=
  if a.isNone && (strVal? o).isSome then strVal? o
  else
    match kvParts? o with
    | some (k, v) =>
      if a.isNone && (strVal? v).isSome && isAgentKey k then strVal? v else a
    | none => a

/-- The first unrecognized K option. -/
def firstBadK (a : Option String) : List Term → Option Term
  | [] => none
  | o :: rest =>
    if specRecognizedK a o then firstBadK (specStepK a o) rest else some o

/-- Spec-side acceptance for the P and H operators' time-interval options:
positional floats fill begin then end; key=value options use the
begin/since or end/until keys with float values and an unset side. -/
def specRecognizedTI (b e : Option Rat) (o : Term) : Bool :=
  match dblVal? o with
  | some _ => b.isNone || e.isNone
  | none =>
    match kvParts? o with
    | some (k, v) =>
      (b.isNone && (dblVal? v).isSome && isBeginKey k) ||
      (e.isNone && (dblVal? v).isSome && isEndKey k)
    | none => false

/-- The interval assignment performed by an accepted P/H option. -/
def specStepTI (b e : Option Rat) (o : Term) : Option Rat × Option Rat :=
  match dblVal? o with
  | some d =>
    if b.isNone then (some d, e)
    else if e.isNone then (b, some d)
    else (b, e)
  | none =>
    match kvParts? o with
    | some (k, v) =>
      if b.isNone && (dblVal? v).isSome && isBeginKey k then (dblVal? v, e)
      else if e.isNone && (dblVal? v).isSome && isEndKey k then (b, dblVal? v)
      else (b, e)
    | none => (b, e)

/-- The first unrecognized P/H option. -/
def firstBadTI (b e : Option Rat) : List Term → Option Term
  | [] => none
  | o :: rest =>
    if specRecognizedTI b e o then
      firstBadTI (specStepTI b e o).1 (specStepTI b e o).2 rest
    else some o

/-- A head-key lower bound, used to state sortedness preservation. -/
def ltHeadKey (x : String) : Smap → Prop
  | [] => True
  | (k, _) :: _ => strLt x k = true

/-- A concrete factory fixture: a built-in type whose instances accept any
configuration. -/
def wFactory : ReasonerFactory :=
  ⟨"Prolog", fun rid => ⟨rid, fun _ => true⟩⟩

/-- A concrete manager state holding the fixture factory. -/
def wState : ManagerState :=
  ⟨[("Prolog", wFactory)], [], 0⟩

/-- A concrete reasoner configuration naming the fixture type. -/
def wConfig : PTree :=
  .node "" [("type", PTree.node "Prolog" [])]

/-! Order lemmas for the string comparison. -/

theorem strLtL_irrefl : ∀ s, strLtL s s = false
  | [] => rfl
  | c :: cs => by simp [strLtL, strLtL_irrefl cs]

theorem strLtL_trans : ∀ a b c, strLtL a b = true → strLtL b c = true →
    strLtL a c = true
  | _, [], _, h1, _ => by simp [strLtL] at h1
  | _, _ :: _, [], _, h2 => by simp [strLtL] at h2
  | [], _ :: _, _ :: _, _, _ => by simp [strLtL]
  | x :: xs, y :: ys, z :: zs, h1, h2 => by
    simp only [strLtL] at h1 h2 ⊢
    by_cases hxy : x.toNat < y.toNat
    · by_cases hyz : y.toNat < z.toNat
      · have hxz : x.toNat < z.toNat := by omega
        simp [hxz]
      · by_cases hzy : z.toNat < y.toNat
        · simp [hyz, hzy] at h2
        · have hxz : x.toNat < z.toNat := by omega
          simp [hxz]
    · by_cases hyx : y.toNat < x.toNat
      · simp [hxy, hyx] at h1
      · simp [hxy, hyx] at h1
        by_cases hyz : y.toNat < z.toNat
        · have hxz : x.toNat < z.toNat := by omega
          simp [hxz]
        · by_cases hzy : z.toNat < y.toNat
          · simp [hyz, hzy] at h2
          · simp [hyz, hzy] at h2
            have hxz : ¬ x.toNat < z.toNat := by omega
            have hzx : ¬ z.toNat < x.toNat := by omega
            simp [hxz, hzx]
            exact strLtL_trans xs ys zs h1 h2

theorem strLtL_eq_of_not_lt : ∀ a b, strLtL a b = false → strLtL b a = false →
    a = b
  | [], [], _, _ => rfl
  | [], _ :: _, h1, _ => by simp [strLtL] at h1
  | _ :: _, [], _, h2 => by simp [strLtL] at h2
  | x :: xs, y :: ys, h1, h2 => by
    by_cases hxy : x.toNat < y.toNat
    · simp [strLtL, hxy] at h1
    · by_cases hyx : y.toNat < x.toNat
      · simp [strLtL, hyx] at h2
      · simp only [strLtL, if_neg hxy, if_neg hyx] at h1 h2
        have hxy2 : x.toNat = y.toNat := by omega
        have hx : x = y := Char.ext (UInt32.ext hxy2)
        rw [hx, strLtL_eq_of_not_lt xs ys h1 h2]

theorem strLt_irrefl (a : String) : strLt a a = false :=
  strLtL_irrefl _

theorem strLt_trans {a b c : String} (h1 : strLt a b = true)
    (h2 : strLt b c = true) : strLt a c = true :=
  strLtL_trans _ _ _ h1 h2

theorem strLt_asymm {a b : String} (h : strLt a b = true) : strLt b a = false := by
  cases hba : strLt b a with
  | false => rfl
  | true =>
    have h2 := strLt_trans h hba
    rw [strLt_irrefl] at h2
    exact absurd h2 (by simp)

theorem strToList_inj {a b : String} (h : a.toList = b.toList) : a = b := by
  cases a with
  | mk la =>
    cases b with
    | mk lb =>
      simp only [String.toList] at h
      exact congrArg String.mk h

theorem strLt_conn {a b : String} (h1 : strLt a b = false) (hne : a ≠ b) :
    strLt b a = true := by
  cases hba : strLt b a with
  | true => rfl
  | false => exact absurd (strToList_inj (strLtL_eq_of_not_lt _ _ h1 hba)) hne

theorem bool_eq_false {b : Bool} (h : ¬ b = true) : b = false := by
  cases b with
  | false => rfl
  | true => exact absurd rfl h

/-! Lemmas about the sorted substitution map. -/

theorem sortedKeys_cons {k : String} {u : Term} {m : Smap} :
    sortedKeys ((k, u) :: m) = true ↔ ltHeadKey k m ∧ sortedKeys m = true := by
  cases m with
  | nil => simp [sortedKeys, ltHeadKey]
  | cons p rest =>
    cases p with
    | mk k2 t2 => simp [sortedKeys, ltHeadKey, Bool.and_eq_true]

theorem find_some_head_lt : ∀ (rest : Smap) (k : String) (u : Term)
    (v : String), sortedKeys ((k, u) :: rest) = true →
    (smapFind rest v).isSome → strLt k v = true
  | [], _, _, _, _, hf => by simp [smapFind] at hf
  | (k2, u2) :: rest2, k, u, v, hs, hf => by
    have hs1 : strLt k k2 = true ∧ sortedKeys ((k2, u2) :: rest2) = true := by
      simpa [sortedKeys, Bool.and_eq_true] using hs
    by_cases hv : v = k2
    · rw [hv]; exact hs1.1
    · have hf2 : (smapFind rest2 v).isSome := by
        simpa [smapFind, hv] using hf
      exact strLt_trans hs1.1 (find_some_head_lt rest2 k2 u2 v hs1.2 hf2)

theorem smapSet_find_self : ∀ (m : Smap) (v : String) (t : Term),
    sortedKeys m = true → smapFind m v = some t → smapSet m v t = m
  | [], v, t, _, hf => by simp [smapFind] at hf
  | (k, u) :: rest, v, t, hs, hf => by
    by_cases hv : v = k
    · subst hv
      have hu : u = t := by simpa [smapFind] using hf
      simp [smapSet, strLt_irrefl, hu]
    · have hfr : smapFind rest v = some t := by simpa [smapFind, hv] using hf
      have hlt : strLt k v = true :=
        find_some_head_lt rest k u v hs (by simp [hfr])
      have hnlt : strLt v k = false := strLt_asymm hlt
      have hsr : sortedKeys rest = true := (sortedKeys_cons.mp hs).2
      simp [smapSet, hnlt, hv, smapSet_find_self rest v t hsr hfr]

theorem smapInsert_find_self : ∀ (m : Smap) (v : String) (tNew : Term),
    sortedKeys m = true → (smapFind m v).isSome → smapInsert m v tNew = m
  | [], v, tNew, _, hf => by simp [smapFind] at hf
  | (k, u) :: rest, v, tNew, hs, hf => by
    by_cases hv : v = k
    · subst hv
      simp [smapInsert, strLt_irrefl]
    · have hfr : (smapFind rest v).isSome := by simpa [smapFind, hv] using hf
      have hlt : strLt k v = true := find_some_head_lt rest k u v hs hfr
      have hnlt : strLt v k = false := strLt_asymm hlt
      have hsr : sortedKeys rest = true := (sortedKeys_cons.mp hs).2
      simp [smapInsert, hnlt, hv, smapInsert_find_self rest v tNew hsr hfr]

theorem smapErase_smapInsert : ∀ (m : Smap) (v : String) (t : Term),
    smapFind m v = none → smapErase (smapInsert m v t) v = m
  | [], v, t, _ => by simp [smapInsert, smapErase]
  | (k, u) :: rest, v, t, hf => by
    have hvk : ¬ v = k := by
      intro h
      simp [smapFind, h] at hf
    have hfr : smapFind rest v = none := by simpa [smapFind, hvk] using hf
    by_cases hlt : strLt v k = true
    · simp [smapInsert, hlt, smapErase]
    · simp [smapInsert, bool_eq_false hlt, hvk, smapErase,
        smapErase_smapInsert rest v t hfr]

theorem smapSet_smapSet : ∀ (m : Smap) (v : String) (x t : Term),
    smapSet (smapSet m v x) v t = smapSet m v t
  | [], v, x, t => by simp [smapSet, strLt_irrefl]
  | (k, u) :: rest, v, x, t => by
    by_cases hlt : strLt v k = true
    · simp [smapSet, hlt, strLt_irrefl]
    · by_cases hv : v = k
      · subst hv
        simp [smapSet, bool_eq_false hlt, strLt_irrefl]
      · simp [smapSet, bool_eq_false hlt, hv, smapSet_smapSet rest v x t]

theorem ltHeadKey_smapInsert {x v : String} (hxv : strLt x v = true) :
    ∀ (m : Smap) (t : Term), ltHeadKey x m → ltHeadKey x (smapInsert m v t)
  | [], t, _ => by simpa [smapInsert, ltHeadKey] using hxv
  | (k, u) :: rest, t, hh => by
    by_cases hlt : strLt v k = true
    · simp only [smapInsert]
      rw [if_pos hlt]
      exact hxv
    · by_cases hv : v = k
      · simp only [smapInsert]
        rw [if_neg hlt, if_pos hv]
        exact hh
      · simp only [smapInsert]
        rw [if_neg hlt, if_neg hv]
        exact hh

theorem ltHeadKey_smapSet {x v : String} (hxv : strLt x v = true) :
    ∀ (m : Smap) (t : Term), ltHeadKey x m → ltHeadKey x (smapSet m v t)
  | [], t, _ => by simpa [smapSet, ltHeadKey] using hxv
  | (k, u) :: rest, t, hh => by
    by_cases hlt : strLt v k = true
    · simp only [smapSet]
      rw [if_pos hlt]
      exact hxv
    · by_cases hv : v = k
      · simp only [smapSet]
        rw [if_neg hlt, if_pos hv]
        exact hh
      · simp only [smapSet]
        rw [if_neg hlt, if_neg hv]
        exact hh

theorem sortedKeys_smapInsert : ∀ (m : Smap) (v : String) (t : Term),
    sortedKeys m = true → sortedKeys (smapInsert m v t) = true
  | [], v, t, _ => by simp [smapInsert, sortedKeys]
  | (k, u) :: rest, v, t, hs => by
    obtain ⟨hh, hsr⟩ := sortedKeys_cons.mp hs
    by_cases hlt : strLt v k = true
    · simp only [smapInsert]
      rw [if_pos hlt]
      exact sortedKeys_cons.mpr ⟨hlt, hs⟩
    · by_cases hv : v = k
      · simp only [smapInsert]
        rw [if_neg hlt, if_pos hv]
        exact hs
      · have hkv : strLt k v = true := strLt_conn (bool_eq_false hlt) hv
        simp only [smapInsert]
        rw [if_neg hlt, if_neg hv]
        exact sortedKeys_cons.mpr
          ⟨ltHeadKey_smapInsert hkv rest t hh,
           sortedKeys_smapInsert rest v t hsr⟩

theorem sortedKeys_smapSet : ∀ (m : Smap) (v : String) (t : Term),
    sortedKeys m = true → sortedKeys (smapSet m v t) = true
  | [], v, t, _ => by simp [smapSet, sortedKeys]
  | (k, u) :: rest, v, t, hs => by
    obtain ⟨hh, hsr⟩ := sortedKeys_cons.mp hs
    by_cases hlt : strLt v k = true
    · simp only [smapSet]
      rw [if_pos hlt]
      exact sortedKeys_cons.mpr ⟨hlt, hs⟩
    · by_cases hv : v = k
      · simp only [smapSet]
        rw [if_neg hlt, if_pos hv]
        exact sortedKeys_cons.mpr ⟨hh, hsr⟩
      · have hkv : strLt k v = true := strLt_conn (bool_eq_false hlt) hv
        simp only [smapSet]
        rw [if_neg hlt, if_neg hv]
        exact sortedKeys_cons.mpr
          ⟨ltHeadKey_smapSet hkv rest t hh,
           sortedKeys_smapSet rest v t hsr⟩

/-! Lemmas about the reversible merge. -/

theorem rollBackAll_push (j : Reversible) (e : UndoEntry) (m : Smap) :
    rollBackAll (revPush j e) m = rollBackAll j (runUndo m e) := rfl

theorem rollBack_unifyWith : ∀ (other : List (String × Term)) (m : Smap)
    (j : Reversible), sortedKeys m = true →
    rollBackAll (unifyWith m other j).2.1 (unifyWith m other j).1 =
      rollBackAll j m
  | [], m, j, _ => rfl
  | (v, t1) :: rest, m, j, hs => by
    cases hf : smapFind m v with
    | none =>
      have ih := rollBack_unifyWith rest (smapInsert m v t1)
        (revPush j (.added v)) (sortedKeys_smapInsert m v t1 hs)
      simp only [unifyWith, hf]
      rw [ih, rollBackAll_push]
      show rollBackAll j (smapErase (smapInsert m v t1) v) = rollBackAll j m
      rw [smapErase_smapInsert m v t1 hf]
    | some t0 =>
      by_cases hex : (mkUnifier t0 t1).uexists = true
      · have ih := rollBack_unifyWith rest
          (smapSet m v (mkUnifier t0 t1).apply) (revPush j (.replaced v t0))
          (sortedKeys_smapSet m v _ hs)
        simp only [unifyWith, hf, hex, if_true]
        rw [ih, rollBackAll_push]
        show rollBackAll j
          (smapSet (smapSet m v (mkUnifier t0 t1).apply) v t0) = rollBackAll j m
        rw [smapSet_smapSet, smapSet_find_self m v t0 hs hf]
      · simp only [unifyWith, hf, if_neg hex]

theorem unifyWith_journal_count : ∀ (other : List (String × Term)) (m : Smap)
    (j : Reversible),
    ((unifyWith m other j).2.2 = true →
      (unifyWith m other j).2.1.length = other.length + j.length) ∧
    ((unifyWith m other j).2.2 = false →
      (unifyWith m other j).2.1.length < other.length + j.length)
  | [], m, j => by
    constructor
    · intro _
      simp [unifyWith]
    · intro h
      simp [unifyWith] at h
  | (v, t1) :: rest, m, j => by
    cases hf : smapFind m v with
    | none =>
      have ih := unifyWith_journal_count rest (smapInsert m v t1)
        (revPush j (.added v))
      have hlen : (revPush j (UndoEntry.added v)).length = j.length + 1 := rfl
      simp only [unifyWith, hf]
      refine ⟨fun h => ?_, fun h => ?_⟩
      · rw [ih.1 h, hlen, List.length_cons]
        omega
      · have := ih.2 h
        rw [hlen] at this
        rw [List.length_cons]
        omega
    | some t0 =>
      by_cases hex : (mkUnifier t0 t1).uexists = true
      · have ih := unifyWith_journal_count rest
          (smapSet m v (mkUnifier t0 t1).apply) (revPush j (.replaced v t0))
        have hlen : (revPush j (UndoEntry.replaced v t0)).length = j.length + 1 := rfl
        simp only [unifyWith, hf, hex, if_true]
        refine ⟨fun h => ?_, fun h => ?_⟩
        · rw [ih.1 h, hlen, List.length_cons]
          omega
        · have := ih.2 h
          rw [hlen] at this
          rw [List.length_cons]
          omega
      · simp only [unifyWith, hf, if_neg hex]
        refine ⟨fun h => ?_, fun _ => ?_⟩
        · simp at h
        · rw [List.length_cons]
          omega

theorem foldl_revPush : ∀ (es : List UndoEntry) (j : Reversible),
    List.foldl revPush j es = es.reverse ++ j
  | [], j => by simp
  | e :: es, j => by
    simp only [List.foldl, List.reverse_cons]
    rw [foldl_revPush es (revPush j e)]
    simp [revPush]

theorem rollBack_run_order (es : List UndoEntry) (m : Smap) :
    rollBackAll (List.foldl revPush [] es) m = List.foldl runUndo m es.reverse := by
  rw [foldl_revPush es []]
  simp [rollBackAll]

/-! Characterization of the modal-option loops: they throw exactly at the
first unrecognized option, and the thrown error is the unrecognized-option
QueryError naming it. -/

theorem createBLoop_err : ∀ (opts : List Term) (a : Option String) (c : Option Rat),
    errOf (createBLoop a c opts) =
      (firstBadB a c opts).map QError.unrecognizedOption
  | [], _, _ => rfl
  | o :: rest, a, c => by
    by_cases h1 : (a.isNone && (strVal? o).isSome) = true
    · simp only [createBLoop, firstBadB, specRecognizedB, specStepB, h1,
        if_true, Bool.true_or]
      exact createBLoop_err rest (strVal? o) c
    · by_cases h2 : (c.isNone && (dblVal? o).isSome) = true
      · simp only [createBLoop, firstBadB, specRecognizedB, specStepB, h1, h2,
          if_true, if_false, Bool.false_or, Bool.true_or, if_neg h1]
        exact createBLoop_err rest a (dblVal? o)
      · cases hkv : kvParts? o with
        | none =>
          simp [createBLoop, firstBadB, specRecognizedB, specStepB, h1, h2,
            hkv, errOf]
        | some kv =>
          cases kv with
          | mk k v =>
            by_cases h3 : (a.isNone && (strVal? v).isSome && isAgentKey k) = true
            · simp only [createBLoop, firstBadB, specRecognizedB, specStepB,
                h1, h2, hkv, h3, if_true, Bool.false_or, Bool.true_or,
                if_neg h1, if_neg h2]
              exact createBLoop_err rest (strVal? v) c
            · by_cases h4 : (c.isNone && (dblVal? v).isSome && isConfKey k) = true
              · simp only [createBLoop, firstBadB, specRecognizedB, specStepB,
                  h1, h2, hkv, h3, h4, if_true, if_false, Bool.false_or,
                  Bool.true_or, if_neg h1, if_neg h2, if_neg h3]
                exact createBLoop_err rest a (dblVal? v)
              · simp [createBLoop, firstBadB, specRecognizedB, specStepB,
                  h1, h2, hkv, h3, h4, errOf]

theorem createKLoop_err : ∀ (opts : List Term) (a : Option String),
    errOf (createKLoop a opts) =
      (firstBadK a opts).map QError.unrecognizedOption
  | [], _ => rfl
  | o :: rest, a => by
    by_cases h1 : (a.isNone && (strVal? o).isSome) = true
    · simp only [createKLoop, firstBadK, specRecognizedK, specStepK, h1,
        if_true, Bool.true_or]
      exact createKLoop_err rest (strVal? o)
    · cases hkv : kvParts? o with
      | none =>
        simp [createKLoop, firstBadK, specRecognizedK, specStepK, h1, hkv, errOf]
      | some kv =>
        cases kv with
        | mk k v =>
          by_cases h3 : (a.isNone && (strVal? v).isSome && isAgentKey k) = true
          · simp only [createKLoop, firstBadK, specRecognizedK, specStepK,
              h1, hkv, h3, if_true, Bool.false_or, if_neg h1]
            exact createKLoop_err rest (strVal? v)
          · simp [createKLoop, firstBadK, specRecognizedK, specStepK,
              h1, hkv, h3, errOf]

theorem rtiLoop_err : ∀ (opts : List Term) (b e : Option Rat),
    errOf (rtiLoop b e opts) =
      (firstBadTI b e opts).map QError.unrecognizedOption
  | [], _, _ => rfl
  | o :: rest, b, e => by
    cases hd : dblVal? o with
    | some d =>
      by_cases hb : b.isNone = true
      · simp only [rtiLoop, firstBadTI, specRecognizedTI, specStepTI, hd, hb,
          if_true, Bool.true_or]
        exact rtiLoop_err rest (some d) e
      · by_cases he : e.isNone = true
        · simp only [rtiLoop, firstBadTI, specRecognizedTI, specStepTI, hd,
            hb, he, if_true, if_false, Bool.false_or, if_neg hb]
          exact rtiLoop_err rest b (some d)
        · simp [rtiLoop, firstBadTI, specRecognizedTI, specStepTI, hd, hb,
            he, errOf]
    | none =>
      cases hkv : kvParts? o with
      | none =>
        simp [rtiLoop, firstBadTI, specRecognizedTI, specStepTI, hd, hkv, errOf]
      | some kv =>
        cases kv with
        | mk k v =>
          by_cases h3 : (b.isNone && (dblVal? v).isSome && isBeginKey k) = true
          · simp only [rtiLoop, firstBadTI, specRecognizedTI, specStepTI, hd,
              hkv, h3, if_true, Bool.true_or]
            exact rtiLoop_err rest (dblVal? v) e
          · by_cases h4 : (e.isNone && (dblVal? v).isSome && isEndKey k) = true
            · simp only [rtiLoop, firstBadTI, specRecognizedTI, specStepTI,
                hd, hkv, h3, h4, if_true, if_false, Bool.false_or,
                Bool.true_or, if_neg h3]
              exact rtiLoop_err rest b (dblVal? v)
            · simp [rtiLoop, firstBadTI, specRecognizedTI, specStepTI, hd,
                hkv, h3, h4, errOf]

/-! The claims. -/

/-- C1: Unifier soundness fails on the code.  The functor/arity test of
Unifier::unify (terms.cpp lines 333-334) compares p0's indicator with
itself, so the compounds f(a) and g(a), which have different functors, are
reported unifiable (exists = true) with the empty substitution; applying
that substitution leaves both terms unchanged and structurally different,
violating apply(t0, sigma) = apply(t1, sigma).  The code contradicts its own
comment "test for functor equality, and matching arity"; the claim states
the intended behaviour, so this is a code bug. -/
theorem C1_unifier_functor_self_compare :
    (mkUnifier (.pred "f" [.str "a"]) (.pred "g" [.str "a"])).uexists = true ∧
    (mkUnifier (.pred "f" [.str "a"]) (.pred "g" [.str "a"])).mapping = [] ∧
    applyTerm (mkUnifier (.pred "f" [.str "a"]) (.pred "g" [.str "a"])).mapping
      (.pred "f" [.str "a"]) = .pred "f" [.str "a"] ∧
    applyTerm (mkUnifier (.pred "f" [.str "a"]) (.pred "g" [.str "a"])).mapping
      (.pred "g" [.str "a"]) = .pred "g" [.str "a"] ∧
    (Term.pred "f" [.str "a"] ≠ Term.pred "g" [.str "a"]) :=
  ⟨rfl, rfl, rfl, rfl,
   fun h => by
     injection h with h1 _
     exact absurd h1 (by decide)⟩

/-- C2: rollback identity.  For sorted substitutions sigma and sigma' and a
fresh journal, running sigma.unifyWith(sigma', j) and then rolling the
journal back restores sigma exactly, whatever the merge returned; the
computeHash value is therefore also restored, for every choice of the
implementation-defined leaf hash functions. -/
theorem C2_rollback_identity (sigma other : Smap)
    (hs : sortedKeys sigma = true) (ho : sortedKeys other = true) :
    rollBackAll (unifyWith sigma other []).2.1 (unifyWith sigma other []).1 =
      sigma ∧
    ∀ (hk : String → Nat) (ht : Term → Nat),
      computeHash hk ht
          (rollBackAll (unifyWith sigma other []).2.1
            (unifyWith sigma other []).1) =
        computeHash hk ht sigma := by
  have h := rollBack_unifyWith other sigma [] hs
  exact ⟨h, fun hk ht => by rw [h]; rfl⟩

/-- Witness for C2 at a concrete merge performing one insertion and one
replacement. -/
theorem C2_rollback_identity_witness :
    rollBackAll
        (unifyWith [("X", Term.str "a")]
          [("A", Term.str "c"), ("X", Term.str "a")] []).2.1
        (unifyWith [("X", Term.str "a")]
          [("A", Term.str "c"), ("X", Term.str "a")] []).1 =
      [("X", Term.str "a")] :=
  (C2_rollback_identity [("X", Term.str "a")]
    [("A", Term.str "c"), ("X", Term.str "a")] (by decide) (by decide)).1

/-- C3: the reversible journal is a LIFO stack.  Every successfully processed
pair of a merge pushes exactly one undo entry (so a merge that returns true
pushes one entry per pair of the other substitution, and a failed merge has
pushed strictly fewer), and rolling back a journal built by a sequence of
pushes runs the undo entries in reverse push order, most recent first.  The
journal's container type is declared in knowrob/terms/Substitution.h, absent
from the sources here, and is modelled from the spec as a LIFO stack. -/
theorem C3_journal_lifo :
    (∀ (sigma other : Smap) (j : Reversible),
      ((unifyWith sigma other j).2.2 = true →
        (unifyWith sigma other j).2.1.length = other.length + j.length) ∧
      ((unifyWith sigma other j).2.2 = false →
        (unifyWith sigma other j).2.1.length < other.length + j.length)) ∧
    (∀ (es : List UndoEntry) (m : Smap),
      rollBackAll (List.foldl revPush [] es) m =
        List.foldl runUndo m es.reverse) :=
  ⟨fun sigma other j => unifyWith_journal_count other sigma j,
   rollBack_run_order⟩

/-- Witness for C3: a one-pair merge pushes one entry, and a two-entry
journal rolls back most-recently-pushed first. -/
theorem C3_journal_lifo_witness :
    (unifyWith [] [("X", Term.str "a")] []).2.1.length = 1 ∧
    rollBackAll
        (List.foldl revPush [] [UndoEntry.added "X", UndoEntry.added "Y"]) [] =
      List.foldl runUndo [] [UndoEntry.added "X", UndoEntry.added "Y"].reverse :=
  ⟨(C3_journal_lifo.1 [] [("X", Term.str "a")] []).1 rfl,
   C3_journal_lifo.2 [UndoEntry.added "X", UndoEntry.added "Y"] []⟩

/-- C4: parser precedence.  "p,q;r" parses to a disjunction of the
conjunction of p and q with r; "p;q,r" to a disjunction of p with the
conjunction of q and r; "p->q->r" to the right-associated implication of p
with (q implies r) — conjunction binds tighter than disjunction, which
binds tighter than implication.  The statements hold for every IRI-prefix
hook. -/
theorem C4_parser_precedence : ∀ reg : IriResolver,
    qparse reg "p,q;r" =
      .ok (.disj [.conj [.pred "p" [], .pred "q" []], .pred "r" []]) ∧
    qparse reg "p;q,r" =
      .ok (.disj [.pred "p" [], .conj [.pred "q" [], .pred "r" []]]) ∧
    qparse reg "p->q->r" =
      .ok (.impl (.pred "p" []) (.impl (.pred "q" []) (.pred "r" []))) :=
  fun _ => ⟨rfl, rfl, rfl⟩

/-- C5: empty positional option slots are NOT accepted by the grammar.  The
options rule is a bracketed non-empty option % comma list, and no option
matches the empty string, so P[,10.0] phi and P[10,] phi raise the
invalid-syntax QueryError instead of parsing to an open interval; this
contradicts the claim, the spec, and the repository's own test
QueryParserTest.ModalityWithEmptyArguments, while agreeing with the TODO in
readTimeInterval ("allow eg H[,20] phi?"), so it is settled as a code bug. -/
theorem C5_empty_slots_rejected : ∀ reg : IriResolver,
    qparse reg "P[,10.0] p(x)" = .error (.invalidSyntax "P[,10.0] p(x)") ∧
    qparse reg "P[10,] p(x)" = .error (.invalidSyntax "P[10,] p(x)") :=
  fun _ => ⟨rfl, rfl⟩

/-- C6: unrecognized modal options raise the unrecognized-option QueryError.
For each option loop (B; K; the shared time-interval reader of P and H), the
loop throws exactly when the option list contains an option that is a
duplicate assignment, an unknown key, or a type mismatch relative to the
state left by the options before it, and the thrown error is the QueryError
naming the first such option; concretely, parsing B[foo=fred] p(x) raises
the QueryError naming the option (= foo fred). -/
theorem C6_unrecognized_option_errors :
    (∀ (a : Option String) (c : Option Rat) (opts : List Term),
      errOf (createBLoop a c opts) =
        (firstBadB a c opts).map QError.unrecognizedOption) ∧
    (∀ (a : Option String) (opts : List Term),
      errOf (createKLoop a opts) =
        (firstBadK a opts).map QError.unrecognizedOption) ∧
    (∀ (b e : Option Rat) (opts : List Term),
      errOf (rtiLoop b e opts) =
        (firstBadTI b e opts).map QError.unrecognizedOption) ∧
    (∀ reg : IriResolver,
      qparse reg "B[foo=fred] p(x)" =
        .error (.unrecognizedOption (Term.pred "=" [.str "foo", .str "fred"]))) :=
  ⟨fun a c opts => createBLoop_err opts a c,
   fun a opts => createKLoop_err opts a,
   fun b e opts => rtiLoop_err opts b e,
   fun _ => rfl⟩

/-- C7: PredicateIndicator::operator< is NOT a strict total order.  As
written it returns (other.functor < this.functor) || (other.arity <
this.arity); on the indicators a/2 and b/1 both directions hold at once, so
the relation is not asymmetric (hence not transitive with irreflexivity,
and trichotomy fails).  Spec section 9 records this as a known defect of
the source, so the claim is right and the code wrong. -/
theorem C7_indicator_order_not_strict :
    piLess ⟨"a", 2⟩ ⟨"b", 1⟩ = true ∧
    piLess ⟨"b", 1⟩ ⟨"a", 2⟩ = true ∧
    piLess ⟨"a", 2⟩ ⟨"a", 2⟩ = false := by
  decide

/-- C8: once loadReasoner has resolved a factory, it creates the instance,
and: if loadConfiguration on the built configuration returns false the
instance is not added to the pool, if true it is appended; in both cases the
auto-naming index is incremented by exactly one. -/
theorem C8_load_reasoner_pool_and_index
    (dl : String → Option ReasonerFactory) (st : ManagerState) (config : PTree)
    (f : ReasonerFactory) (hres : resolveFactory dl st config = some f) :
    ∃ st', loadReasoner dl st config = .ok st' ∧
      st'.reasonerIndex = st.reasonerIndex + 1 ∧
      ((f.create (reasonerID st config f)).loadCfg (loadPropertyTree config) =
          false → st'.pool = st.pool) ∧
      ((f.create (reasonerID st config f)).loadCfg (loadPropertyTree config) =
          true →
        st'.pool = st.pool ++ [f.create (reasonerID st config f)]) := by
  simp only [loadReasoner, hres]
  by_cases hc :
    (f.create (reasonerID st config f)).loadCfg (loadPropertyTree config) = true
  · rw [if_pos hc]
    exact ⟨_, rfl, rfl, fun hfalse => by simp [hfalse] at hc, fun _ => rfl⟩
  · rw [if_neg hc]
    exact ⟨_, rfl, rfl, fun _ => rfl, fun htrue => absurd htrue hc⟩

/-- Witness for C8 at a concrete manager state, plugin loader, and
configuration whose factory resolves to the fixture factory. -/
theorem C8_load_reasoner_witness :
    ∃ st', loadReasoner (fun _ => none) wState wConfig = .ok st' ∧
      st'.reasonerIndex = wState.reasonerIndex + 1 ∧
      ((wFactory.create (reasonerID wState wConfig wFactory)).loadCfg
          (loadPropertyTree wConfig) = false → st'.pool = wState.pool) ∧
      ((wFactory.create (reasonerID wState wConfig wFactory)).loadCfg
          (loadPropertyTree wConfig) = true →
        st'.pool = wState.pool ++
          [wFactory.create (reasonerID wState wConfig wFactory)]) :=
  C8_load_reasoner_pool_and_index (fun _ => none) wState wConfig wFactory rfl

/-- C9 (amended): when no unifier exists, Unifier::apply() returns the
process-wide Bottom singleton — never null, which totality of the embedding
reflects — and it therefore differs from each input term except when that
input is itself the Bottom singleton. -/
theorem C9_apply_bottom_on_failure (t0 t1 : Term)
    (h : (mkUnifier t0 t1).uexists = false) :
    (mkUnifier t0 t1).apply = Term.bot ∧
    (t0 ≠ Term.bot → (mkUnifier t0 t1).apply ≠ t0) ∧
    (t1 ≠ Term.bot → (mkUnifier t0 t1).apply ≠ t1) := by
  have ha : (mkUnifier t0 t1).apply = Term.bot := by
    simp [Unifier.apply, h]
  refine ⟨ha, fun hne hc => ?_, fun hne hc => ?_⟩
  · rw [ha] at hc
    exact hne hc.symm
  · rw [ha] at hc
    exact hne hc.symm

/-- Counterexample for C9 as stated: with the Bottom singleton itself as the
first input, the failed unifier's apply() returns a term identical to that
input, so "not either input term" does not hold in general. -/
theorem C9_counterexample :
    (mkUnifier Term.bot (Term.str "a")).uexists = false ∧
    (mkUnifier Term.bot (Term.str "a")).apply =
      (mkUnifier Term.bot (Term.str "a")).t0 :=
  ⟨rfl, rfl⟩

/-- Witness for C9 on two distinct non-Bottom constants that fail to
unify. -/
theorem C9_apply_bottom_on_failure_witness :
    (mkUnifier (Term.str "a") (Term.str "b")).apply = Term.bot ∧
    (mkUnifier (Term.str "a") (Term.str "b")).apply ≠ Term.str "a" :=
  have h := C9_apply_bottom_on_failure (Term.str "a") (Term.str "b") rfl
  ⟨h.1, h.2.1 (fun hc => Term.noConfusion hc)⟩

/-- C10: Substitution::set of src/src/terms/Substitution.cpp inserts but
never overwrites: binding an already-bound variable leaves the whole map
unchanged, and get still returns the original term. -/
theorem C10_set_never_overwrites (sigma : Smap) (v : String) (t tNew : Term)
    (hs : sortedKeys sigma = true) (hf : smapFind sigma v = some t) :
    subSet sigma v tNew = sigma ∧
    smapFind (subSet sigma v tNew) v = some t := by
  have h1 : subSet sigma v tNew = sigma :=
    smapInsert_find_self sigma v tNew hs (by simp [hf])
  refine ⟨h1, by rw [h1, hf]⟩

/-- Witness for C10 on a one-entry substitution. -/
theorem C10_set_never_overwrites_witness :
    subSet [("X", Term.str "a")] "X" (Term.str "b") = [("X", Term.str "a")] ∧
    smapFind (subSet [("X", Term.str "a")] "X" (Term.str "b")) "X" =
      some (Term.str "a") :=
  C10_set_never_overwrites [("X", Term.str "a")] "X" (Term.str "a")
    (Term.str "b") rfl rfl

end knowrob
